import Mathlib

/-!
Verification of the EduNote text pipeline: the chunker, the summary and quiz
response parsers (src/app/main.py), and the external generation invokers
(src/edunote_llm/llama_wrapper.py, src/app/llama_runner.py).

Python strings are modelled as lists of characters; each definition below is a
direct translation of the corresponding Python code.
-/

/-- Python strings are modelled as lists of characters. -/
abbrev Str := List Char

/-- Coerce a Lean string literal into the model representation. -/
def str (s : String) : Str := s.data

/-- ASCII whitespace, the characters removed by Python str.strip(). -/
def isSpace (c : Char) : Bool :=
  c == ' ' || c == '\t' || c == '\n' || c == '\r' || c == '\x0b' || c == '\x0c'

/-- Python str.strip(): remove leading and trailing whitespace. -/
def pyStrip (s : Str) : Str :=
  ((s.dropWhile isSpace).reverse.dropWhile isSpace).reverse

/-- Downward scan for pyRfind: checks indices start+fuel-1, ..., start+0 in
that order and returns the first (hence highest) hit, -1 when none. -/
def rfindAux (s : Str) (c : Char) (start : Nat) : Nat → Int
  | 0 => -1
  | n + 1 =>
    if s.getD (start + n) ' ' == c then ((start + n : Nat) : Int)
    else rfindAux s c start n

/-- Python text.rfind(c, start, stop): the highest index i with
start ≤ i < min stop (length text) and text[i] = c, and -1 when none. -/
def pyRfind (s : Str) (c : Char) (start stop : Nat) : Int :=
  rfindAux s c start (min stop s.length - start)

/-- One iteration of the while loop of simple_chunk_text (src/app/main.py,
lines 74-82): the split index chosen for the window
[start, min (start+maxChars) (length t)).  A '\n' found strictly after start
wins, else a '.' found strictly after start, else the hard window-end cut
(Python rfind returns -1 when nothing is found, and -1 <= start). -/
def chunkStep (t : Str) (maxChars start : Nat) : Nat :=
  let e := min (start + maxChars) t.length
  let s1 := pyRfind t '\n' start e
  let s2 := if s1 ≤ (start : Int) then pyRfind t '.' start e else s1
  let s3 := if s2 ≤ (start : Int) then (e : Int) else s2
  s3.toNat

/-- The while loop of simple_chunk_text with explicit fuel (the Python loop
has no bound; fuel = length of the text suffices whenever maxChars ≥ 1, which
the termination theorem below establishes).  Returns the (start, split) index
pairs in emission order. -/
def chunkLoop (t : Str) (maxChars : Nat) : Nat → Nat → List (Nat × Nat)
  | start, fuel + 1 =>
    if start < t.length then
      (start, chunkStep t maxChars start) ::
        chunkLoop t maxChars (chunkStep t maxChars start) fuel
    else []
  | _, 0 => []

/-- The (cursor, split_point) pairs produced by simple_chunk_text on the
already-stripped text t. -/
def chunkPairs (t : Str) (maxChars : Nat) : List (Nat × Nat) :=
  chunkLoop t maxChars 0 t.length

/-- Python string slicing t[a:b]. -/
def pySlice (t : Str) (a b : Nat) : Str := (t.drop a).take (b - a)

/-- simple_chunk_text from src/app/main.py lines 67-83: strip the input,
return [] when empty, otherwise emit the per-window stripped slices. -/
def simple_chunk_text (text : Str) (maxChars : Nat) : List Str :=
  let t := pyStrip text
  if t.isEmpty then []
  else (chunkPairs t maxChars).map (fun p => pyStrip (pySlice t p.1 p.2))

/-- The pairs form a contiguous strictly increasing chain from a to b:
the first component of each pair continues where the previous pair stopped,
every pair strictly advances, and the chain ends exactly at b. -/
def chainB (a b : Nat) : List (Nat × Nat) → Bool
  | [] => a == b
  | p :: ps => (p.1 == a && decide (a < p.2)) && chainB p.2 b ps

/-- rfindAux yields -1 or an index start + k with k below the fuel. -/
theorem rfindAux_cases (s : Str) (c : Char) (start : Nat) (fuel : Nat) :
    rfindAux s c start fuel = -1 ∨
      ∃ k, k < fuel ∧ rfindAux s c start fuel = ((start + k : Nat) : Int) := by
  induction fuel with
  | zero => exact Or.inl rfl
  | succ n ih =>
    simp only [rfindAux]
    split
    · exact Or.inr ⟨n, Nat.lt_succ_self n, rfl⟩
    · rcases ih with h1 | ⟨k, hk, h2⟩
      · exact Or.inl h1
      · exact Or.inr ⟨k, Nat.lt_succ_of_lt hk, h2⟩

/-- pyRfind yields -1 or an in-window index. -/
theorem pyRfind_cases (s : Str) (c : Char) (start stop : Nat) :
    pyRfind s c start stop = -1 ∨
      ∃ k, start + k < min stop s.length ∧
        pyRfind s c start stop = ((start + k : Nat) : Int) := by
  unfold pyRfind
  rcases rfindAux_cases s c start (min stop s.length - start) with h | ⟨k, hk, h⟩
  · exact Or.inl h
  · refine Or.inr ⟨k, ?_, h⟩
    generalize min stop s.length = m at hk ⊢
    omega

/-- Arithmetic core of the progress argument: whichever branch of the split
choice is taken, the result lands strictly after start and within the text. -/
theorem chooseSplit_bounds (e L start : Nat) (r1 r2 : Int)
    (hse : start < e) (hel : e ≤ L)
    (h1 : r1 = -1 ∨ ∃ k, start + k < e ∧ r1 = ((start + k : Nat) : Int))
    (h2 : r2 = -1 ∨ ∃ k, start + k < e ∧ r2 = ((start + k : Nat) : Int)) :
    start < (if (if r1 ≤ (start : Int) then r2 else r1) ≤ (start : Int)
               then (e : Int) else (if r1 ≤ (start : Int) then r2 else r1)).toNat
      ∧ (if (if r1 ≤ (start : Int) then r2 else r1) ≤ (start : Int)
           then (e : Int) else (if r1 ≤ (start : Int) then r2 else r1)).toNat ≤ L := by
  rcases h1 with rfl | ⟨k1, hk1, rfl⟩ <;> rcases h2 with rfl | ⟨k2, hk2, rfl⟩ <;>
    split_ifs <;> constructor <;> omega

/-- With a positive window, every loop iteration strictly advances the cursor
and stays within the text. -/
theorem chunkStep_bounds (t : Str) (maxChars start : Nat)
    (h1 : 1 ≤ maxChars) (h2 : start < t.length) :
    start < chunkStep t maxChars start ∧ chunkStep t maxChars start ≤ t.length := by
  have hse : start < min (start + maxChars) t.length := lt_min (by omega) h2
  have hel : min (start + maxChars) t.length ≤ t.length := min_le_right _ _
  have hmin : min (min (start + maxChars) t.length) t.length
      = min (start + maxChars) t.length := min_eq_left hel
  have hcn := pyRfind_cases t '\n' start (min (start + maxChars) t.length)
  have hcd := pyRfind_cases t '.' start (min (start + maxChars) t.length)
  rw [hmin] at hcn hcd
  exact chooseSplit_bounds (min (start + maxChars) t.length) t.length start
    (pyRfind t '\n' start (min (start + maxChars) t.length))
    (pyRfind t '.' start (min (start + maxChars) t.length)) hse hel hcn hcd

/-- The loop, given fuel at least the remaining length, produces a strictly
increasing contiguous chain of split pairs that ends exactly at the text
length. -/
theorem chunkLoop_chain (t : Str) (maxChars : Nat) (h1 : 1 ≤ maxChars) :
    ∀ fuel start, start ≤ t.length → t.length - start ≤ fuel →
      chainB start t.length (chunkLoop t maxChars start fuel) = true := by
  intro fuel
  induction fuel with
  | zero =>
    intro start hs hf
    have h : start = t.length := by omega
    simp [chunkLoop, chainB, h]
  | succ n ih =>
    intro start hs hf
    by_cases h : start < t.length
    · have hb := chunkStep_bounds t maxChars start h1 h
      have hrec := ih (chunkStep t maxChars start) hb.2 (by omega)
      simp [chunkLoop, if_pos h, chainB, hb.1, hrec]
    · have heq : start = t.length := by omega
      simp [chunkLoop, if_neg h, chainB, heq]

/-- C1: for every input text and every positive max_length, the chunker
terminates and makes forward progress at each step: run with fuel equal to
the stripped text's length, the loop produces split pairs that start at
cursor 0, strictly increase the cursor on every iteration (the window-end
fallback in chunkStep forces progress when neither separator search yields a
position strictly after the cursor), and reach the end of the text exactly,
so the Python while loop finishes within one iteration per character even on
pathological input with no newline and no period. -/
theorem chunk_terminates_progress (text : Str) (maxChars : Nat) (h : 1 ≤ maxChars) :
    chainB 0 (pyStrip text).length (chunkPairs (pyStrip text) maxChars) = true :=
  chunkLoop_chain (pyStrip text) maxChars h (pyStrip text).length 0
    (Nat.zero_le _) (by omega)

/-- Witness for C1 at a pathological concrete input: a run of 50 identical
non-whitespace characters containing no newline and no period, window 7. -/
theorem chunk_terminates_progress_witness :
    chainB 0 (pyStrip (List.replicate 50 'a')).length
      (chunkPairs (pyStrip (List.replicate 50 'a')) 7) = true :=
  chunk_terminates_progress (List.replicate 50 'a') 7 (by decide)

/-- Gluing a slice back onto the rest of the text. -/
theorem pySlice_append_drop (t : Str) (a b : Nat) (h : a ≤ b) :
    pySlice t a b ++ t.drop b = t.drop a := by
  have h2 : (t.drop a).drop (b - a) = t.drop b := by
    rw [List.drop_drop]
    congr 1
    omega
  rw [pySlice, ← h2, List.take_append_drop]

/-- Concatenating the untrimmed slices along a chain of split pairs
reconstructs the text from the chain's starting cursor. -/
theorem chain_join (t : Str) : ∀ (ps : List (Nat × Nat)) (a : Nat),
    chainB a t.length ps = true →
    (ps.map (fun p => pySlice t p.1 p.2)).flatten = t.drop a := by
  intro ps
  induction ps with
  | nil =>
    intro a h
    simp only [chainB, beq_iff_eq] at h
    simp [h, List.drop_length]
  | cons p ps ih =>
    intro a h
    simp only [chainB, Bool.and_eq_true, beq_iff_eq, decide_eq_true_eq] at h
    obtain ⟨⟨hp1, hlt⟩, hc⟩ := h
    simp only [List.map_cons, List.flatten_cons]
    rw [ih p.2 hc, hp1]
    exact pySlice_append_drop t a p.2 (Nat.le_of_lt (hp1 ▸ hlt))

/-- C2: for every input text (and positive window, as at both call sites),
the chunker's untrimmed slices [cursor, split_point) taken in emission order
concatenate to the trimmed input exactly, and their boundaries form a
contiguous, strictly increasing, non-overlapping chain from 0 to the trimmed
length: full coverage with no gaps and no overlaps. -/
theorem chunk_coverage (text : Str) (maxChars : Nat) (h : 1 ≤ maxChars) :
    ((chunkPairs (pyStrip text) maxChars).map
        (fun p => pySlice (pyStrip text) p.1 p.2)).flatten = pyStrip text
      ∧ chainB 0 (pyStrip text).length (chunkPairs (pyStrip text) maxChars) = true := by
  have hc := chunkLoop_chain (pyStrip text) maxChars h (pyStrip text).length 0
    (Nat.zero_le _) (by omega)
  refine ⟨?_, hc⟩
  have := chain_join (pyStrip text) (chunkPairs (pyStrip text) maxChars) 0 hc
  simpa using this

/-- Witness for C2 at a concrete input mixing newline and period breaks. -/
theorem chunk_coverage_witness :
    ((chunkPairs (pyStrip (str "hello world. this is text.\nmore text here")) 12).map
        (fun p => pySlice (pyStrip (str "hello world. this is text.\nmore text here")) p.1 p.2)).flatten
      = pyStrip (str "hello world. this is text.\nmore text here")
      ∧ chainB 0 (pyStrip (str "hello world. this is text.\nmore text here")).length
          (chunkPairs (pyStrip (str "hello world. this is text.\nmore text here")) 12) = true :=
  chunk_coverage (str "hello world. this is text.\nmore text here") 12 (by decide)

/-- C8: emitted chunks are not guaranteed to be non-empty: on the non-empty
input "a.  .b" with positive max_length 2 the third emitted chunk is the
empty string (the window [3,4) holds a single space, which per-chunk
stripping empties). -/
theorem chunk_can_emit_empty_chunk :
    simple_chunk_text (str "a.  .b") 2 = [str "a", str ".", [], str ".b"]
      ∧ pyStrip (str "a.  .b") ≠ [] := by
  exact ⟨by decide, by decide⟩

/-- Start positions at which pat occurs as a contiguous substring of s. -/
def subPos (pat s : Str) : List Nat :=
  (List.range (s.length + 1)).filter (fun i => pat.isPrefixOf (s.drop i))

/-- Python `pat in s` (substring containment). -/
def containsSub (pat s : Str) : Bool := !(subPos pat s).isEmpty

/-- Python s.split(pat, 1)[1] guarded by occurrence: the text after the
first occurrence of pat, and s itself when pat does not occur. -/
def afterFirst (pat s : Str) : Str :=
  match (subPos pat s).head? with
  | some i => s.drop (i + pat.length)
  | none => s

/-- Python s.split(pat)[-1] for a marker with no self-overlap: the text
after the last occurrence of pat, and s itself when pat does not occur. -/
def afterLast (pat s : Str) : Str :=
  match (subPos pat s).getLast? with
  | some i => s.drop (i + pat.length)
  | none => s

/-- Python s.strip(" )"): remove leading and trailing spaces and ')'. -/
def stripSpaceParen (s : Str) : Str :=
  ((s.dropWhile (fun c => c == ' ' || c == ')')).reverse.dropWhile
      (fun c => c == ' ' || c == ')')).reverse

/-- Helper for splitlines: split at every '\n'. -/
def splitNl : Str → List Str
  | [] => [[]]
  | c :: rest =>
    if c == '\n' then [] :: splitNl rest
    else
      match splitNl rest with
      | l :: ls => (c :: l) :: ls
      | [] => [[c]]

/-- Python str.splitlines() for '\n'-terminated lines: split at every
newline, with no trailing empty line when the text ends in a newline. -/
def splitlines (s : Str) : List Str :=
  if s.isEmpty then []
  else if s.getLast? == some '\n' then (splitNl s).dropLast
  else splitNl s

/-- Python str.lower(), character by character. -/
def toLowerStr (s : Str) : Str := s.map Char.toLower

/-- Python str.upper(), character by character. -/
def toUpperStr (s : Str) : Str := s.map Char.toUpper

/-- Quiz question-line test (main.py line 188):
l.lower().startswith("question") or l.endswith("?"). -/
def isQuestionLine (l : Str) : Bool :=
  (str "question").isPrefixOf (toLowerStr l) || (str "?").isSuffixOf l

/-- The twelve option-marker prefixes of main.py line 192. -/
def optionMarks : List Str :=
  [str "A)", str "B)", str "C)", str "D)",
   str "A.", str "B.", str "C.", str "D.",
   str "A ", str "B ", str "C ", str "D "]

/-- Quiz option-line test (main.py line 192): l.upper().startswith(...). -/
def isOptionLine (l : Str) : Bool :=
  optionMarks.any (fun p => p.isPrefixOf (toUpperStr l))

/-- A parsed quiz question record: question text, option lines, optional
answer marker text. -/
structure QuizQuestion where
  question : Str
  options : List Str
  answer : Option Str
  deriving DecidableEq

/-- One line of the quiz parsing loop (main.py lines 187-203), acting on the
committed questions and the currently open question. -/
def quizStep (acc : List QuizQuestion) (cur : Option QuizQuestion) (l : Str) :
    List QuizQuestion × Option QuizQuestion :=
  if isQuestionLine l then
    (match cur with
     | some q => acc ++ [q]
     | none => acc,
     some ⟨l, [], none⟩)
  else if isOptionLine l then
    let q0 := match cur with
      | some q => q
      | none => (⟨[], [], none⟩ : QuizQuestion)
    let withOpt : QuizQuestion := ⟨q0.question, q0.options ++ [l], q0.answer⟩
    if containsSub (str "(Answer:") l || containsSub (str "Answer:") l then
      (acc, some ⟨withOpt.question, withOpt.options,
        some (stripSpaceParen (afterLast (str "Answer:") l))⟩)
    else (acc, some withOpt)
  else if containsSub (str "(Answer:") l then
    match cur with
    | some q => (acc, some ⟨q.question, q.options,
        some (stripSpaceParen (afterFirst (str "(Answer:") l))⟩)
    | none => (acc, none)
  else
    match cur with
    | some q => (acc, some q)
    | none => (acc, some ⟨l, [], none⟩)

/-- The trimmed non-empty lines the quiz parser iterates over
(main.py line 185). -/
def quizLines (out : Str) : List Str :=
  ((splitlines out).map pyStrip).filter (fun l => !l.isEmpty)

/-- parse_quiz: the question-extraction loop of the /quiz endpoint
(main.py lines 184-205), including the final commit of the open question. -/
def parse_quiz (out : Str) : List QuizQuestion :=
  let st := (quizLines out).foldl (fun s l => quizStep s.1 s.2 l)
    (([] : List QuizQuestion), (none : Option QuizQuestion))
  match st.2 with
  | some q => st.1 ++ [q]
  | none => st.1

/-- The /quiz endpoint's result shape: raw-text fallback, or structured
questions together with the raw text (main.py lines 207-209). -/
inductive QuizResponse where
  | raw (text : Str)
  | structured (qs : List QuizQuestion) (text : Str)
  deriving DecidableEq

/-- The zero-question fallback of the /quiz endpoint. -/
def quizRespond (out : Str) : QuizResponse :=
  let qs := parse_quiz out
  if qs.isEmpty then QuizResponse.raw out
  else QuizResponse.structured qs out

/-- An answer-marker line reaching the third parser branch with no open
question leaves the parser state unchanged. -/
theorem quizStep_ansOnly (acc : List QuizQuestion) (l : Str)
    (h1 : containsSub (str "(Answer:") l = true)
    (h2 : isQuestionLine l = false)
    (h3 : isOptionLine l = false) :
    quizStep acc none l = (acc, none) := by
  simp [quizStep, h1, h2, h3]

/-- C9: a non-empty line containing "(Answer:" that matches neither the
question pattern nor the option-marker pattern, encountered while no
question is open, is discarded entirely: it does not open a fallback
question and no answer is recorded anywhere — the parser state is
unchanged. -/
theorem quiz_answer_line_without_question_discarded (acc : List QuizQuestion)
    (l : Str) (h0 : l ≠ [])
    (h1 : containsSub (str "(Answer:") l = true)
    (h2 : isQuestionLine l = false)
    (h3 : isOptionLine l = false) :
    quizStep acc none l = (acc, none) :=
  quizStep_ansOnly acc l h1 h2 h3

/-- Witness for C9 at the concrete line "(Answer: B)". -/
theorem quiz_answer_line_without_question_discarded_witness :
    quizStep [] none (str "(Answer: B)") = ([], none) :=
  quiz_answer_line_without_question_discarded [] (str "(Answer: B)")
    (by decide) (by decide) (by decide) (by decide)

/-- Folding the parser over answer-only lines keeps the empty state. -/
theorem quizFold_ansOnly (ls : List Str)
    (h : ∀ l ∈ ls, containsSub (str "(Answer:") l = true ∧
      isQuestionLine l = false ∧ isOptionLine l = false) :
    ls.foldl (fun s l => quizStep s.1 s.2 l)
      (([] : List QuizQuestion), (none : Option QuizQuestion)) = ([], none) := by
  induction ls with
  | nil => rfl
  | cons l ls ih =>
    have hl := h l (List.mem_cons_self l ls)
    simp only [List.foldl_cons]
    rw [quizStep_ansOnly [] l hl.1 hl.2.1 hl.2.2]
    exact ih (fun x hx => h x (List.mem_cons_of_mem l hx))

/-- C3: on generated text in which no line resembles a question — every
trimmed non-empty line fails the question test and the option test and
carries the "(Answer:" marker, the only line class that never opens a
question — parse_quiz returns the empty question sequence (it is a total
function, so it never throws), and the /quiz endpoint then falls back to
exposing the raw generated text verbatim instead of an empty structured
result. -/
theorem quiz_zero_questions_raw_fallback (out : Str)
    (h : ∀ l ∈ quizLines out, containsSub (str "(Answer:") l = true ∧
      isQuestionLine l = false ∧ isOptionLine l = false) :
    parse_quiz out = [] ∧ quizRespond out = QuizResponse.raw out := by
  have hf := quizFold_ansOnly (quizLines out) h
  constructor
  · simp [parse_quiz, hf]
  · simp [quizRespond, parse_quiz, hf]

/-- Witness for C3 at a concrete two-line answer-only generated text. -/
theorem quiz_zero_questions_raw_fallback_witness :
    parse_quiz (str "(Answer: B)\n(Answer: C)") = []
      ∧ quizRespond (str "(Answer: B)\n(Answer: C)")
          = QuizResponse.raw (str "(Answer: B)\n(Answer: C)") :=
  quiz_zero_questions_raw_fallback (str "(Answer: B)\n(Answer: C)") (by decide)

/-- Counterexample to C7 as stated: the line "Answer: B" contains the bare
answer marker "Answer:" without a preceding paren, matches neither the
question pattern nor the option-marker pattern, and arrives while a question
is open, yet the parser leaves the state untouched — the open question's
answer stays none instead of being set to "B" — because the code's
answer-line branch tests only for "(Answer:". -/
theorem quiz_bare_answer_marker_ignored :
    (containsSub (str "Answer:") (str "Answer: B") = true
        ∧ containsSub (str "(Answer:") (str "Answer: B") = false
        ∧ isQuestionLine (str "Answer: B") = false
        ∧ isOptionLine (str "Answer: B") = false)
      ∧ quizStep [] (some ⟨str "What is 2+2?", [], none⟩) (str "Answer: B")
          = ([], some ⟨str "What is 2+2?", [], none⟩)
      ∧ parse_quiz (str "What is 2+2?\nAnswer: B")
          = [⟨str "What is 2+2?", [], none⟩] :=
  ⟨by decide, by decide, by decide⟩

/-- C7 amended: in the quiz parser, for every line that contains the
parenthesized answer marker "(Answer:" but does not match the option-marker
pattern and does not start a new question, when a question is currently
open, that question's answer is set to the text following the first
"(Answer:" trimmed of leading and trailing ')' and space characters, the
question and options are unchanged, and no option entry is created; a line
carrying only the bare marker "Answer:" without the paren is not treated as
an answer line in this branch. -/
theorem quiz_answer_line_sets_answer (acc : List QuizQuestion)
    (q : QuizQuestion) (l : Str)
    (h1 : containsSub (str "(Answer:") l = true)
    (h2 : isQuestionLine l = false)
    (h3 : isOptionLine l = false) :
    quizStep acc (some q) l
      = (acc, some ⟨q.question, q.options,
          some (stripSpaceParen (afterFirst (str "(Answer:") l))⟩) := by
  simp [quizStep, h1, h2, h3]

/-- Witness for the amended C7 at the concrete line "(Answer: B)". -/
theorem quiz_answer_line_sets_answer_witness :
    quizStep [] (some ⟨str "What is 2+2?", [str "A) 3"], none⟩) (str "(Answer: B)")
        = ([], some ⟨str "What is 2+2?", [str "A) 3"],
            some (stripSpaceParen (afterFirst (str "(Answer:") (str "(Answer: B)")))⟩)
      ∧ stripSpaceParen (afterFirst (str "(Answer:") (str "(Answer: B)")) = str "B" :=
  ⟨quiz_answer_line_sets_answer [] ⟨str "What is 2+2?", [str "A) 3"], none⟩
      (str "(Answer: B)") (by decide) (by decide) (by decide),
    by decide⟩

/-- Per-line accumulator of the /summarize endpoint (main.py lines 154-164):
the state is (bullets, summary fragments); a bullet line contributes its
lstripped text when non-empty and not already present, a summary line
contributes the text after its first colon (or the whole line). -/
def sumStep (st : List Str × List Str) (rawLine : Str) : List Str × List Str :=
  let line := pyStrip rawLine
  if (str "-").isPrefixOf line then
    let b := pyStrip (line.dropWhile (fun c => c == '-' || c == ' '))
    if b ≠ [] ∧ b ∉ st.1 then (st.1 ++ [b], st.2) else st
  else if (str "summary").isPrefixOf (toLowerStr line) then
    if containsSub (str ":") line then
      (st.1, st.2 ++ [pyStrip (afterFirst (str ":") line)])
    else (st.1, st.2 ++ [pyStrip line])
  else st

/-- The per-chunk loop of /summarize (main.py lines 151-166) as a function
of the generated outputs, with the early break once 5 bullets exist. -/
def sumLoop : List Str → List Str → List Str → List Str × List Str
  | [], bullets, frags => (bullets, frags)
  | out :: rest, bullets, frags =>
    let st := (splitlines out).foldl sumStep (bullets, frags)
    if 5 ≤ st.1.length then st else sumLoop rest st.1 st.2

/-- The /summarize endpoint's parsed result (main.py lines 149-170) as a
function of the generated outputs, one per chunk: the final bullet list
truncated to 5 and the space-joined summary text truncated to 800
characters (empty when no fragment was collected). -/
def summarizeOuts (outs : List Str) : List Str × Str :=
  let st := sumLoop outs [] []
  (st.1.take 5,
    if st.2.isEmpty then [] else (List.intercalate (str " ") st.2).take 800)

/-- The bullet text a line contributes when it is a bullet line with
non-empty stripped content (the candidate the dedup check filters). -/
def bulletOf (rawLine : Str) : Option Str :=
  let line := pyStrip rawLine
  if (str "-").isPrefixOf line then
    let b := pyStrip (line.dropWhile (fun c => c == '-' || c == ' '))
    if b ≠ [] then some b else none
  else none

/-- All bullet candidates of a sequence of generated outputs, in encounter
order. -/
def bulletCandidates (outs : List Str) : List Str :=
  (outs.map (fun out => (splitlines out).filterMap bulletOf)).flatten

/-- Each parsed line appends to the bullet list a batch drawn from its
bullet candidate, and preserves freedom from duplicates. -/
theorem sumStep_bullets (st : List Str × List Str) (l : Str) :
    ∃ d, (sumStep st l).1 = st.1 ++ d
      ∧ d.Sublist (bulletOf l).toList
      ∧ (st.1.Nodup → (sumStep st l).1.Nodup) := by
  simp only [sumStep, bulletOf]
  by_cases h1 : ((str "-").isPrefixOf (pyStrip l)) = true
  · rw [if_pos h1, if_pos h1]
    by_cases h2 : pyStrip ((pyStrip l).dropWhile (fun c => c == '-' || c == ' ')) ≠ []
        ∧ pyStrip ((pyStrip l).dropWhile (fun c => c == '-' || c == ' ')) ∉ st.1
    · rw [if_pos h2, if_pos h2.1]
      refine ⟨[pyStrip ((pyStrip l).dropWhile (fun c => c == '-' || c == ' '))],
        rfl, List.Sublist.refl _, ?_⟩
      intro hn
      refine List.Nodup.append hn (List.nodup_singleton _) ?_
      intro a ha hb
      rw [List.mem_singleton.mp hb] at ha
      exact h2.2 ha
    · rw [if_neg h2]
      refine ⟨[], by simp, List.nil_sublist _, fun hn => hn⟩
  · rw [if_neg h1, if_neg h1]
    refine ⟨[], ?_, List.nil_sublist _, ?_⟩
    · split_ifs <;> simp
    · intro hn
      split_ifs <;> simpa

/-- Folding the summary line parser over a chunk's lines only appends bullet
candidates of those lines, in order, and keeps the bullet list
duplicate-free. -/
theorem sumFold_bullets (ls : List Str) : ∀ st : List Str × List Str,
    ∃ d, (ls.foldl sumStep st).1 = st.1 ++ d
      ∧ d.Sublist (ls.filterMap bulletOf)
      ∧ (st.1.Nodup → (ls.foldl sumStep st).1.Nodup) := by
  induction ls with
  | nil => exact fun st => ⟨[], by simp, List.nil_sublist _, fun h => h⟩
  | cons l ls ih =>
    intro st
    obtain ⟨d1, hd1, hs1, hn1⟩ := sumStep_bullets st l
    obtain ⟨d2, hd2, hs2, hn2⟩ := ih (sumStep st l)
    refine ⟨d1 ++ d2, ?_, ?_, fun hn => hn2 (hn1 hn)⟩
    · simp only [List.foldl_cons, hd2, hd1, List.append_assoc]
    · have hcons : (l :: ls).filterMap bulletOf
          = (bulletOf l).toList ++ ls.filterMap bulletOf := by
        cases h : bulletOf l <;> simp [List.filterMap_cons, h]
      rw [hcons]
      exact List.Sublist.append hs1 hs2

/-- The chunk loop only appends bullet candidates of the processed outputs,
in order, and keeps the bullet list duplicate-free. -/
theorem sumLoop_bullets : ∀ (outs bullets frags : List Str),
    ∃ d, (sumLoop outs bullets frags).1 = bullets ++ d
      ∧ d.Sublist (bulletCandidates outs)
      ∧ (bullets.Nodup → (sumLoop outs bullets frags).1.Nodup) := by
  intro outs
  induction outs with
  | nil => exact fun bullets frags => ⟨[], by simp [sumLoop], List.nil_sublist _, fun h => h⟩
  | cons out rest ih =>
    intro bullets frags
    obtain ⟨d1, hd1, hs1, hn1⟩ := sumFold_bullets (splitlines out) (bullets, frags)
    have hcand : bulletCandidates (out :: rest)
        = (splitlines out).filterMap bulletOf ++ bulletCandidates rest := by
      simp [bulletCandidates]
    by_cases hb : 5 ≤ ((splitlines out).foldl sumStep (bullets, frags)).1.length
    · refine ⟨d1, ?_, ?_, ?_⟩
      · simp only [sumLoop, if_pos hb]
        exact hd1
      · rw [hcand]
        exact hs1.trans (List.sublist_append_left _ _)
      · intro hn
        simp only [sumLoop, if_pos hb]
        exact hn1 hn
    · obtain ⟨d2, hd2, hs2, hn2⟩ := ih
        (((splitlines out).foldl sumStep (bullets, frags)).1)
        (((splitlines out).foldl sumStep (bullets, frags)).2)
      refine ⟨d1 ++ d2, ?_, ?_, ?_⟩
      · simp only [sumLoop, if_neg hb]
        rw [hd2, hd1, List.append_assoc]
      · rw [hcand]
        exact List.Sublist.append (hs1.trans (List.Sublist.refl _)) hs2
      · intro hn
        simp only [sumLoop, if_neg hb]
        exact hn2 (hn1 hn)

/-- C4: for every sequence of generated texts processed by the /summarize
pipeline, the returned bullet list has at most 5 entries, contains no
duplicate bullet string, and preserves insertion order: it is a sublist of
the stream of parsed bullet candidates in encounter order. -/
theorem summarize_bullets_bounded_nodup (outs : List Str) :
    (summarizeOuts outs).1.length ≤ 5
      ∧ (summarizeOuts outs).1.Nodup
      ∧ (summarizeOuts outs).1.Sublist (bulletCandidates outs) := by
  obtain ⟨d, hd, hs, hn⟩ := sumLoop_bullets outs [] []
  have h1 : (summarizeOuts outs).1 = (sumLoop outs [] []).1.take 5 := by
    simp [summarizeOuts]
  refine ⟨?_, ?_, ?_⟩
  · rw [h1]
    exact List.length_take_le 5 _
  · rw [h1]
    exact (List.take_sublist _ _).nodup (hn List.nodup_nil)
  · rw [h1]
    refine (List.take_sublist _ _).trans ?_
    rw [show (sumLoop outs [] []).1 = d from by simpa using hd]
    exact hs

/-- C10: the bullet-marker stripping removes every leading '-' and space
character, not only the first marker: on the generated line
"- -3 is negative" the recorded bullet is "3 is negative", so bullet text
that itself begins with '-' or space is altered. -/
theorem summarize_strips_all_leading_dashes :
    sumStep ([], []) (str "- -3 is negative") = ([str "3 is negative"], [])
      ∧ summarizeOuts [str "- -3 is negative"] = ([str "3 is negative"], []) :=
  ⟨by decide, by decide⟩

/-- Completed-process observation (exit status, stdout, stderr) consumed by
the generation invokers; running the external process itself is outside the
model. -/
structure ProcResult where
  returncode : Int
  stdout : Str
  stderr : Str

/-- Scan of LlamaWrapper._parse_output (llama_wrapper.py lines 52-57):
return everything after the first blank line, trimmed; fall back to all of
stdout trimmed when no blank line exists. -/
def parseOutAux (stdout : Str) : List Str → Str
  | [] => pyStrip stdout
  | l :: rest =>
    if (pyStrip l).isEmpty then pyStrip (List.intercalate (str "\n") rest)
    else parseOutAux stdout rest

/-- LlamaWrapper._parse_output (llama_wrapper.py lines 45-57). -/
def parse_output (stdout : Str) : Str := parseOutAux stdout (splitlines stdout)

/-- The generation error message of LlamaWrapper.generate
(llama_wrapper.py line 41). -/
def genErrMsg (p : ProcResult) : Str :=
  str "llama-cli failed (rc=" ++ (Int.repr p.returncode).data ++ str "):\n"
    ++ p.stderr

/-- LlamaWrapper.generate (llama_wrapper.py lines 24-43) as a function of
the observed process result: a RuntimeError carrying stderr on nonzero
exit, the parsed stdout otherwise. -/
def LlamaWrapper.generate (p : ProcResult) : Except Str Str :=
  if p.returncode ≠ 0 then Except.error (genErrMsg p)
  else Except.ok (parse_output p.stdout)

/-- The generation error message of run_llama_once (llama_runner.py
line 29), which forwards stderr stripped. -/
def runErrMsg (p : ProcResult) : Str :=
  str "llama.cpp failed: " ++ pyStrip p.stderr

/-- run_llama_once (llama_runner.py lines 13-30) as a function of the
observed process result. -/
def run_llama_once (p : ProcResult) : Except Str Str :=
  if p.returncode ≠ 0 then Except.error (runErrMsg p)
  else Except.ok (pyStrip p.stdout)

/-- List.isPrefixOf is reflexive for characters. -/
theorem isPrefixOf_rfl (l : Str) : l.isPrefixOf l = true := by
  induction l with
  | nil => rfl
  | cons c t ih => simp [List.isPrefixOf, ih]

/-- A string occurs as a substring of any extension of itself on the
left. -/
theorem containsSub_append_self (pre pat : Str) :
    containsSub pat (pre ++ pat) = true := by
  have hmem : pre.length ∈ subPos pat (pre ++ pat) := by
    rw [subPos, List.mem_filter]
    refine ⟨?_, ?_⟩
    · rw [List.mem_range, List.length_append]
      omega
    · rw [List.drop_left]
      exact isPrefixOf_rfl pat
  unfold containsSub
  rcases hsp : subPos pat (pre ++ pat) with _ | ⟨a, l⟩
  · rw [hsp] at hmem
    cases hmem
  · rfl

/-- C5: for every observed process result, a nonzero exit status makes both
generation invokers fail with a generation error whose message contains the
process's diagnostic (stderr) text — run_llama_once forwards it stripped —
and no generation result is produced; on zero exit status no error is
raised and the extracted output is returned. -/
theorem generate_error_carries_stderr (p : ProcResult) :
    (p.returncode ≠ 0 →
      LlamaWrapper.generate p = Except.error (genErrMsg p)
        ∧ containsSub p.stderr (genErrMsg p) = true
        ∧ run_llama_once p = Except.error (runErrMsg p)
        ∧ containsSub (pyStrip p.stderr) (runErrMsg p) = true)
      ∧ (p.returncode = 0 →
        LlamaWrapper.generate p = Except.ok (parse_output p.stdout)
          ∧ run_llama_once p = Except.ok (pyStrip p.stdout)) := by
  constructor
  · intro h
    refine ⟨by simp [LlamaWrapper.generate, h], ?_,
      by simp [run_llama_once, h], ?_⟩
    · simp only [genErrMsg]
      exact containsSub_append_self _ _
    · simp only [runErrMsg]
      exact containsSub_append_self _ _
  · intro h
    exact ⟨by simp [LlamaWrapper.generate, h],
      by simp [run_llama_once, h]⟩

/-- Witness for C5 at concrete process results: exit status 1 with stderr
"boom", and exit status 0. -/
theorem generate_error_carries_stderr_witness :
    (LlamaWrapper.generate ⟨1, str "out", str "boom"⟩
        = Except.error (genErrMsg ⟨1, str "out", str "boom"⟩)
      ∧ containsSub (str "boom") (genErrMsg ⟨1, str "out", str "boom"⟩) = true
      ∧ run_llama_once ⟨1, str "out", str "boom"⟩
          = Except.error (runErrMsg ⟨1, str "out", str "boom"⟩)
      ∧ containsSub (pyStrip (str "boom"))
          (runErrMsg ⟨1, str "out", str "boom"⟩) = true)
      ∧ (LlamaWrapper.generate ⟨0, str "header\n\nanswer", str ""⟩
          = Except.ok (parse_output (str "header\n\nanswer"))
        ∧ run_llama_once ⟨0, str "header\n\nanswer", str ""⟩
            = Except.ok (pyStrip (str "header\n\nanswer"))) :=
  ⟨(generate_error_carries_stderr ⟨1, str "out", str "boom"⟩).1 (by decide),
    (generate_error_carries_stderr ⟨0, str "header\n\nanswer", str ""⟩).2 rfl⟩

/-- Argv construction of LlamaWrapper.generate (llama_wrapper.py lines
29-37): a discrete argument list, the prompt as its own element after "-p".
The numeric sampling parameters enter via their str() renderings, which are
abstracted as string arguments (float rendering is outside the model). -/
def LlamaWrapper.buildCmd
    (binaryPath modelPath prompt nStr tempStr topkStr toppStr : Str) : List Str :=
  [binaryPath, str "-m", modelPath, str "-p", prompt, str "-n", nStr,
   str "--temp", tempStr, str "--top-k", topkStr, str "--top-p", toppStr]

/-- Characters the shlex.quote unsafe-regex treats as safe: ASCII
alphanumerics plus underscore, at-sign, percent, plus, equals, colon,
comma, dot, slash and hyphen (the regex runs with re.ASCII). -/
def isSafeChar (c : Char) : Bool :=
  c.isAlphanum || c == '_' || c == '@' || c == '%' || c == '+' || c == '='
    || c == ':' || c == ',' || c == '.' || c == '/' || c == '-'

/-- The replacement shlex.quote applies inside single quotes: a single quote
becomes the five-character bridge quote, double quote, quote, double quote,
quote. -/
def replQ (c : Char) : Str :=
  if c == '\'' then ['\'', '"', '\'', '"', '\''] else [c]

/-- shlex.quote: the empty string becomes a pair of single quotes, an
all-safe string passes unchanged, anything else is wrapped in single quotes
with embedded single quotes bridged. -/
def shlexQuote (s : Str) : Str :=
  if s.isEmpty then ['\'', '\'']
  else if s.all isSafeChar then s
  else '\'' :: s.flatMap replQ ++ ['\'']

/-- shlex whitespace in posix mode. -/
def isShWs (c : Char) : Bool := c == ' ' || c == '\t' || c == '\r' || c == '\n'

/-- Modes of the posix shlex lexer: outside any token, inside a plain word,
inside single quotes, inside double quotes, after a backslash inside double
quotes, after a backslash in a plain word. -/
inductive LexMode where
  | out
  | word
  | squote
  | dquote
  | dqesc
  | esc
  deriving DecidableEq

/-- Running state of the posix shlex lexer: mode, current token (none when
no token has started), and the tokens emitted so far. -/
structure LexState where
  mode : LexMode
  cur : Option Str
  toks : List Str
  deriving DecidableEq

/-- One character of shlex.split in posix mode with whitespace_split (as
invoked by shlex.split): whitespace delimits tokens, single quotes are
literal runs, double quotes allow backslash escapes of the double quote and
the backslash only, and a backslash outside quotes escapes any following
character. -/
def shlexStep (st : LexState) (c : Char) : LexState :=
  match st.mode with
  | LexMode.out =>
    if isShWs c then st
    else if c == '\'' then ⟨LexMode.squote, some (st.cur.getD []), st.toks⟩
    else if c == '"' then ⟨LexMode.dquote, some (st.cur.getD []), st.toks⟩
    else if c == '\\' then ⟨LexMode.esc, some (st.cur.getD []), st.toks⟩
    else ⟨LexMode.word, some (st.cur.getD [] ++ [c]), st.toks⟩
  | LexMode.word =>
    if isShWs c then ⟨LexMode.out, none, st.toks ++ [st.cur.getD []]⟩
    else if c == '\'' then ⟨LexMode.squote, st.cur, st.toks⟩
    else if c == '"' then ⟨LexMode.dquote, st.cur, st.toks⟩
    else if c == '\\' then ⟨LexMode.esc, st.cur, st.toks⟩
    else ⟨LexMode.word, some (st.cur.getD [] ++ [c]), st.toks⟩
  | LexMode.squote =>
    if c == '\'' then ⟨LexMode.word, st.cur, st.toks⟩
    else ⟨LexMode.squote, some (st.cur.getD [] ++ [c]), st.toks⟩
  | LexMode.dquote =>
    if c == '"' then ⟨LexMode.word, st.cur, st.toks⟩
    else if c == '\\' then ⟨LexMode.dqesc, st.cur, st.toks⟩
    else ⟨LexMode.dquote, some (st.cur.getD [] ++ [c]), st.toks⟩
  | LexMode.dqesc =>
    if c == '"' || c == '\\' then
      ⟨LexMode.dquote, some (st.cur.getD [] ++ [c]), st.toks⟩
    else ⟨LexMode.dquote, some (st.cur.getD [] ++ ['\\', c]), st.toks⟩
  | LexMode.esc => ⟨LexMode.word, some (st.cur.getD [] ++ [c]), st.toks⟩

/-- End of input: emit the pending token; an unterminated quote or escape is
a lexing error (shlex raises ValueError there). -/
def shlexFin (st : LexState) : Option (List Str) :=
  match st.mode with
  | LexMode.out => some st.toks
  | LexMode.word => some (st.toks ++ [st.cur.getD []])
  | _ => none

/-- shlex.split in posix mode with whitespace_split, as invoked by
run_llama_once; none models the ValueError on unbalanced quoting. -/
def shlexSplit (s : Str) : Option (List Str) :=
  shlexFin (s.foldl shlexStep ⟨LexMode.out, none, []⟩)

/-- The f-string command of run_llama_once (llama_runner.py line 25) with
the constant binary "./main": the model path and the prompt pass through
shlex.quote, n_predict through str(). -/
def runnerCmd (model prompt : Str) (nPredict : Nat) : Str :=
  str "./main -m " ++ shlexQuote model ++ str " -p " ++ shlexQuote prompt
    ++ str " -n " ++ (Nat.repr nPredict).data

/-- The argument list run_llama_once hands to subprocess.run (line 26):
shlex.split of the quoted command string; no shell is involved. -/
def runnerArgv (model prompt : Str) (nPredict : Nat) : Option (List Str) :=
  shlexSplit (runnerCmd model prompt nPredict)

/-- A safe character is not whitespace, not a quote of either kind, and not
a backslash. -/
theorem isSafeChar_plain (c : Char) (h : isSafeChar c = true) :
    isShWs c = false ∧ (c == '\'') = false ∧ (c == '"') = false
      ∧ (c == '\\') = false := by
  refine ⟨?_, ?_, ?_, ?_⟩
  · cases hw : isShWs c
    · rfl
    · exfalso
      simp only [isShWs, Bool.or_eq_true, beq_iff_eq] at hw
      rcases hw with ((h1 | h1) | h1) | h1 <;> subst h1 <;> exact absurd h (by decide)
  · cases hq : (c == '\'')
    · rfl
    · exfalso
      have h1 : c = '\'' := by simpa using hq
      subst h1
      exact absurd h (by decide)
  · cases hq : (c == '"')
    · rfl
    · exfalso
      have h1 : c = '"' := by simpa using hq
      subst h1
      exact absurd h (by decide)
  · cases hq : (c == '\\')
    · rfl
    · exfalso
      have h1 : c = '\\' := by simpa using hq
      subst h1
      exact absurd h (by decide)

/-- Inside a plain word, safe characters are appended verbatim. -/
theorem foldl_word_safe (w : Str) : ∀ (cur : Str) (toks : List Str),
    w.all isSafeChar = true →
    w.foldl shlexStep ⟨LexMode.word, some cur, toks⟩
      = ⟨LexMode.word, some (cur ++ w), toks⟩ := by
  induction w with
  | nil =>
    intro cur toks h
    simp
  | cons c w ih =>
    intro cur toks h
    rw [List.all_cons, Bool.and_eq_true] at h
    obtain ⟨hw, hq, hd, hb⟩ := isSafeChar_plain c h.1
    simp only [List.foldl_cons]
    rw [show shlexStep ⟨LexMode.word, some cur, toks⟩ c
        = ⟨LexMode.word, some (cur ++ [c]), toks⟩ from by
      simp [shlexStep, hw, hq, hd, hb]]
    rw [ih (cur ++ [c]) toks h.2]
    simp

/-- A shlex-quoted string is consumed, from outside a token, into a pending
word holding exactly the original string. -/
theorem foldl_squote_repl (s : Str) : ∀ (cur : Str) (toks : List Str),
    (s.flatMap replQ).foldl shlexStep ⟨LexMode.squote, some cur, toks⟩
      = ⟨LexMode.squote, some (cur ++ s), toks⟩ := by
  induction s with
  | nil =>
    intro cur toks
    simp
  | cons c s ih =>
    intro cur toks
    by_cases hc : c = '\''
    · subst hc
      rw [show (('\'' :: s).flatMap replQ)
          = ['\'', '"', '\'', '"', '\''] ++ s.flatMap replQ from by
        simp [replQ]]
      rw [List.foldl_append]
      rw [show (['\'', '"', '\'', '"', '\''] : Str).foldl shlexStep
            ⟨LexMode.squote, some cur, toks⟩
          = ⟨LexMode.squote, some (cur ++ ['\'']), toks⟩ from rfl]
      rw [ih (cur ++ ['\'']) toks]
      simp
    · have hcb : (c == '\'') = false := by simp [hc]
      rw [show ((c :: s).flatMap replQ) = c :: s.flatMap replQ from by
        simp [replQ, hcb]]
      simp only [List.foldl_cons]
      rw [show shlexStep ⟨LexMode.squote, some cur, toks⟩ c
          = ⟨LexMode.squote, some (cur ++ [c]), toks⟩ from by
        simp [shlexStep, hcb]]
      rw [ih (cur ++ [c]) toks]
      simp

/-- The lexer consumes any shlex-quoted string, from outside a token, into
a pending word holding exactly the original string. -/
theorem foldl_quote (s : Str) (toks : List Str) :
    (shlexQuote s).foldl shlexStep ⟨LexMode.out, none, toks⟩
      = ⟨LexMode.word, some s, toks⟩ := by
  by_cases he : s.isEmpty
  · have hnil : s = [] := by simpa using he
    subst hnil
    rfl
  · by_cases hs : s.all isSafeChar
    · rw [show shlexQuote s = s from by simp [shlexQuote, he, hs]]
      cases s with
      | nil => simp at he
      | cons c w =>
        rw [List.all_cons, Bool.and_eq_true] at hs
        obtain ⟨hw, hq, hd, hb⟩ := isSafeChar_plain c hs.1
        simp only [List.foldl_cons]
        rw [show shlexStep ⟨LexMode.out, none, toks⟩ c
            = ⟨LexMode.word, some [c], toks⟩ from by
          simp [shlexStep, hw, hq, hd, hb]]
        rw [foldl_word_safe w [c] toks hs.2]
        simp
    · rw [show shlexQuote s = ('\'' :: s.flatMap replQ) ++ ['\''] from by
        simp [shlexQuote, he, hs]]
      rw [List.foldl_append]
      rw [show (('\'' :: s.flatMap replQ) : Str).foldl shlexStep
            ⟨LexMode.out, none, toks⟩ = ⟨LexMode.squote, some s, toks⟩ from by
        simp only [List.foldl_cons]
        rw [show shlexStep ⟨LexMode.out, none, toks⟩ '\''
            = ⟨LexMode.squote, some [], toks⟩ from rfl]
        rw [foldl_squote_repl s [] toks]
        simp]
      rfl

/-- Decimal digit characters are safe shlex characters. -/
theorem digitChar_safe (m : Nat) (h : m < 10) :
    isSafeChar (Nat.digitChar m) = true := by
  interval_cases m <;> decide

/-- Nat.toDigitsCore with a safe accumulator yields only safe characters. -/
theorem toDigitsCore_safe : ∀ (fuel n : Nat) (ds : List Char),
    ds.all isSafeChar = true →
    (Nat.toDigitsCore 10 fuel n ds).all isSafeChar = true := by
  intro fuel
  induction fuel with
  | zero =>
    intro n ds h
    exact h
  | succ f ih =>
    intro n ds h
    have hd : isSafeChar (Nat.digitChar (n % 10)) = true :=
      digitChar_safe (n % 10) (Nat.mod_lt n (by norm_num))
    rw [show Nat.toDigitsCore 10 (f + 1) n ds
        = if n / 10 = 0 then Nat.digitChar (n % 10) :: ds
          else Nat.toDigitsCore 10 f (n / 10) (Nat.digitChar (n % 10) :: ds)
      from rfl]
    by_cases hz : n / 10 = 0
    · rw [if_pos hz]
      simp [hd, h]
    · rw [if_neg hz]
      exact ih (n / 10) (Nat.digitChar (n % 10) :: ds) (by simp [hd, h])

/-- Nat.toDigitsCore only prepends to its accumulator. -/
theorem toDigitsCore_append : ∀ (fuel n : Nat) (ds : List Char),
    ∃ pre, Nat.toDigitsCore 10 fuel n ds = pre ++ ds := by
  intro fuel
  induction fuel with
  | zero =>
    intro n ds
    exact ⟨[], rfl⟩
  | succ f ih =>
    intro n ds
    rw [show Nat.toDigitsCore 10 (f + 1) n ds
        = if n / 10 = 0 then Nat.digitChar (n % 10) :: ds
          else Nat.toDigitsCore 10 f (n / 10) (Nat.digitChar (n % 10) :: ds)
      from rfl]
    by_cases hz : n / 10 = 0
    · rw [if_pos hz]
      exact ⟨[Nat.digitChar (n % 10)], rfl⟩
    · rw [if_neg hz]
      obtain ⟨pre, hp⟩ := ih (n / 10) (Nat.digitChar (n % 10) :: ds)
      refine ⟨pre ++ [Nat.digitChar (n % 10)], ?_⟩
      rw [hp]
      simp

/-- str(n) for a natural number renders as safe characters only. -/
theorem repr_data_safe (n : Nat) :
    ((Nat.repr n).data).all isSafeChar = true := by
  show ((Nat.toDigitsCore 10 (n + 1) n []).all isSafeChar) = true
  exact toDigitsCore_safe (n + 1) n [] rfl

/-- str(n) for a natural number is never empty. -/
theorem repr_data_ne (n : Nat) : (Nat.repr n).data ≠ [] := by
  show Nat.toDigitsCore 10 (n + 1) n [] ≠ []
  rw [show Nat.toDigitsCore 10 (n + 1) n []
      = if n / 10 = 0 then [Nat.digitChar (n % 10)]
        else Nat.toDigitsCore 10 n (n / 10) [Nat.digitChar (n % 10)]
    from rfl]
  by_cases hz : n / 10 = 0
  · rw [if_pos hz]
    simp
  · rw [if_neg hz]
    obtain ⟨pre, hp⟩ := toDigitsCore_append n (n / 10) [Nat.digitChar (n % 10)]
    rw [hp]
    simp

/-- A trailing non-empty all-safe word at end of input is emitted as the
final token. -/
theorem foldl_out_word_eoi (w : Str) (toks : List Str) (hne : w ≠ [])
    (hsafe : w.all isSafeChar = true) :
    shlexFin (w.foldl shlexStep ⟨LexMode.out, none, toks⟩)
      = some (toks ++ [w]) := by
  cases w with
  | nil => exact absurd rfl hne
  | cons c w =>
    rw [List.all_cons, Bool.and_eq_true] at hsafe
    obtain ⟨hw, hq, hd, hb⟩ := isSafeChar_plain c hsafe.1
    simp only [List.foldl_cons]
    rw [show shlexStep ⟨LexMode.out, none, toks⟩ c
        = ⟨LexMode.word, some [c], toks⟩ from by
      simp [shlexStep, hw, hq, hd, hb]]
    rw [foldl_word_safe w [c] toks hsafe.2]
    simp [shlexFin]

/-- C6: the prompt is passed to the external process as a single discrete
element of the argument list, verbatim and unmodified.  LlamaWrapper.generate
places it as the fifth element of its constructed argv, and run_llama_once's
shlex-quoted command string is re-split by the posix lexer into exactly
seven arguments with the prompt verbatim at index 4, for every prompt (with
quotes, spaces, newlines or shell metacharacters), every model path and
every n_predict; subprocess.run receives the list, so no shell ever
interprets the prompt. -/
theorem prompt_single_argv_element
    (binaryPath modelPath prompt nStr tempStr topkStr toppStr : Str)
    (model prompt2 : Str) (nPredict : Nat) :
    (LlamaWrapper.buildCmd binaryPath modelPath prompt nStr tempStr topkStr
        toppStr)[4]? = some prompt
      ∧ prompt ∈ LlamaWrapper.buildCmd binaryPath modelPath prompt nStr
          tempStr topkStr toppStr
      ∧ runnerArgv model prompt2 nPredict
          = some [str "./main", str "-m", model, str "-p", prompt2,
              str "-n", (Nat.repr nPredict).data] := by
  refine ⟨rfl, by simp [LlamaWrapper.buildCmd], ?_⟩
  show shlexFin ((runnerCmd model prompt2 nPredict).foldl shlexStep
      ⟨LexMode.out, none, []⟩) = _
  rw [runnerCmd]
  rw [List.foldl_append, List.foldl_append, List.foldl_append,
    List.foldl_append, List.foldl_append]
  rw [show (str "./main -m ").foldl shlexStep ⟨LexMode.out, none, []⟩
      = ⟨LexMode.out, none, [str "./main", str "-m"]⟩ from by decide]
  rw [foldl_quote model [str "./main", str "-m"]]
  rw [show (str " -p ").foldl shlexStep
        ⟨LexMode.word, some model, [str "./main", str "-m"]⟩
      = ⟨LexMode.out, none, [str "./main", str "-m", model, str "-p"]⟩
    from rfl]
  rw [foldl_quote prompt2 [str "./main", str "-m", model, str "-p"]]
  rw [show (str " -n ").foldl shlexStep
        ⟨LexMode.word, some prompt2, [str "./main", str "-m", model, str "-p"]⟩
      = ⟨LexMode.out, none,
          [str "./main", str "-m", model, str "-p", prompt2, str "-n"]⟩
    from rfl]
  rw [foldl_out_word_eoi ((Nat.repr nPredict).data)
    [str "./main", str "-m", model, str "-p", prompt2, str "-n"]
    (repr_data_ne nPredict) (repr_data_safe nPredict)]
  rfl
